import Mathlib

/-!
Verification development for `parse_session.py`: a utility that parses a
JSONL session log into events, tool-usage counts and a modified-files set
(`parse_jsonl`), renders a markdown report (`generate_markdown`), and a
command-line entry point.

The embedding models Python values (`Py`), Python exceptions that can
escape per-line processing (`PyErr`), and the relevant library functions
over explicit character lists so that every definition is executable by
the kernel.  A JSONL input file is modelled as a list of lines, each
either `Option.none` (the line fails to decode as JSON, i.e. raises
`json.JSONDecodeError`) or `some v` with `v` the decoded Python value.
-/

/-- Python exceptions that can escape the per-line processing in
`parse_jsonl` (the `try` block only catches `json.JSONDecodeError`). -/
inductive PyErr where
  | attributeError
  | valueError
  | typeError
  deriving DecidableEq

/-- Model of a Python value as produced by `json.loads` (and used for the
`input` payloads of tool-use blocks).  Dicts are association lists; JSON
decoding produces unique keys, and lookups take the first binding. -/
inductive Py where
  | none
  | bool (b : Bool)
  | int (n : Int)
  | str (s : String)
  | list (xs : List Py)
  | dict (kvs : List (String × Py))

mutual

/-- Structural equality on `Py` (Python `==` restricted to JSON-shaped
values; numeric cross-type equalities such as `1 == True` are not
reproduced, no claim depends on them). -/
def pyEq : Py → Py → Bool
  | Py.none, Py.none => true
  | Py.bool a, Py.bool b => a = b
  | Py.int a, Py.int b => a = b
  | Py.str a, Py.str b => a = b
  | Py.list xs, Py.list ys => pyEqSeq xs ys
  | Py.dict xs, Py.dict ys => pyEqKvs xs ys
  | _, _ => false

/-- Elementwise equality of `Py` lists. -/
def pyEqSeq : List Py → List Py → Bool
  | [], [] => true
  | x :: xs, y :: ys => pyEq x y && pyEqSeq xs ys
  | _, _ => false

/-- Entrywise equality of `Py` dict association lists. -/
def pyEqKvs : List (String × Py) → List (String × Py) → Bool
  | [], [] => true
  | (k1, v1) :: xs, (k2, v2) :: ys => k1 = k2 && pyEq v1 v2 && pyEqKvs xs ys
  | _, _ => false

end

/-- `pyEq` decides equality (stated as a definition so the decidability
instance below can be set up before the operational definitions). -/
def pyEq_iff_eq (a b : Py) : pyEq a b = true ↔ a = b := by
  refine pyEq.induct
    (fun a b => pyEq a b = true ↔ a = b)
    (fun xs ys => pyEqKvs xs ys = true ↔ xs = ys)
    (fun xs ys => pyEqSeq xs ys = true ↔ xs = ys)
    ?_ ?_ ?_ ?_ ?_ ?_ ?_ ?_ ?_ ?_ ?_ ?_ ?_ a b
  · simp [pyEq]
  · intro a b
    simp [pyEq]
  · intro a b
    simp [pyEq]
  · intro a b
    simp [pyEq]
  · intro xs ys ih
    simp [pyEq, ih]
  · intro xs ys ih
    simp [pyEq, ih]
  · intro t x h1 h2 h3 h4 h5 h6
    cases t <;> cases x <;>
      first
        | exact (h1 rfl rfl).elim
        | exact (h2 _ _ rfl rfl).elim
        | exact (h3 _ _ rfl rfl).elim
        | exact (h4 _ _ rfl rfl).elim
        | exact (h5 _ _ rfl rfl).elim
        | exact (h6 _ _ rfl rfl).elim
        | simp [pyEq]
  · simp [pyEqSeq]
  · intro x xs y ys ih1 ih2
    simp [pyEqSeq, ih1, ih2]
  · intro t x h1 h2
    cases t with
    | nil =>
      cases x with
      | nil => exact (h1 rfl rfl).elim
      | cons hd2 tl2 => simp [show pyEqSeq [] (hd2 :: tl2) = false from rfl]
    | cons hd tl =>
      cases x with
      | nil => simp [show pyEqSeq (hd :: tl) [] = false from rfl]
      | cons hd2 tl2 => exact (h2 hd tl hd2 tl2 rfl rfl).elim
  · simp [pyEqKvs]
  · intro k1 v1 xs k2 v2 ys ih1 ih2
    simp [pyEqKvs, ih1, ih2]
  · intro t x h1 h2
    cases t with
    | nil =>
      cases x with
      | nil => exact (h1 rfl rfl).elim
      | cons hd2 tl2 =>
        obtain ⟨k2, v2⟩ := hd2
        simp [show pyEqKvs [] ((k2, v2) :: tl2) = false from rfl]
    | cons hd tl =>
      obtain ⟨k1, v1⟩ := hd
      cases x with
      | nil => simp [show pyEqKvs ((k1, v1) :: tl) [] = false from rfl]
      | cons hd2 tl2 =>
        obtain ⟨k2, v2⟩ := hd2
        exact (h2 k1 v1 tl k2 v2 tl2 rfl rfl).elim

instance : DecidableEq Py :=
  fun a b => decidable_of_iff (pyEq a b = true) (pyEq_iff_eq a b)

/-- First-binding lookup in an association list (Python dict lookup). -/
def dictLookup (kvs : List (String × Py)) (k : String) : Option Py :=
  match kvs with
  | [] => Option.none
  | (k2, v) :: rest => if k2 = k then some v else dictLookup rest k

/-- Python `obj.get(key, default)`: on a dict, look the key up and fall
back to the default; on any non-dict value, raise `AttributeError`
(ints, strings, lists and `None` have no `.get` method). -/
def pyGetD (obj : Py) (k : String) (dflt : Py) : Except PyErr Py :=
  match obj with
  | Py.dict kvs => Except.ok ((dictLookup kvs k).getD dflt)
  | _ => Except.error PyErr.attributeError

/-- Python truthiness, as used by `if file_path:`. -/
def pyTruthy (v : Py) : Bool :=
  match v with
  | Py.none => false
  | Py.bool b => b
  | Py.int n => decide (n ≠ 0)
  | Py.str s => decide (s ≠ "")
  | Py.list xs => !xs.isEmpty
  | Py.dict kvs => !kvs.isEmpty

/-- Python `len(v)`: defined for sized values (strings by code point,
lists and dicts by entry count), `TypeError` otherwise. -/
def pyLen (v : Py) : Except PyErr Nat :=
  match v with
  | Py.str s => Except.ok s.length
  | Py.list xs => Except.ok xs.length
  | Py.dict kvs => Except.ok kvs.length
  | _ => Except.error PyErr.typeError

/-- Python slicing `v[:n]`: defined for strings and lists, `TypeError`
otherwise (e.g. a dict rejects a slice key). -/
def pySliceTo (v : Py) (n : Nat) : Except PyErr Py :=
  match v with
  | Py.str s => Except.ok (Py.str (s.take n))
  | Py.list xs => Except.ok (Py.list (xs.take n))
  | _ => Except.error PyErr.typeError

mutual

/-- Modelled library function: Python `repr` as used inside container
`str()` rendering.  String escaping inside quotes is not reproduced. -/
def pyRepr : Py → String
  | Py.none => "None"
  | Py.bool true => "True"
  | Py.bool false => "False"
  | Py.int n => toString n
  | Py.str s => "\x27" ++ s ++ "\x27"
  | Py.list xs => "[" ++ pyReprSeq xs ++ "]"
  | Py.dict kvs => "\x7b" ++ pyReprKvs kvs ++ "\x7d"

/-- Comma-separated `repr` of list elements. -/
def pyReprSeq : List Py → String
  | [] => ""
  | [x] => pyRepr x
  | x :: rest => pyRepr x ++ ", " ++ pyReprSeq rest

/-- Comma-separated `repr` of dict entries. -/
def pyReprKvs : List (String × Py) → String
  | [] => ""
  | [(k, v)] => "\x27" ++ k ++ "\x27: " ++ pyRepr v
  | (k, v) :: rest => "\x27" ++ k ++ "\x27: " ++ pyRepr v ++ ", " ++ pyReprKvs rest

end

/-- Modelled library function: Python `str(v)` as used by f-string
interpolation: a string renders as itself, scalars and containers by
their `repr`-style rendering. -/
def pyFmt (v : Py) : String :=
  match v with
  | Py.str s => s
  | other => pyRepr other

/-- Is the first list a prefix of the second?  (Executable helper for the
`str.startswith` model.) -/
def chListPref (p l : List Char) : Bool :=
  match p, l with
  | [], _ => true
  | _ :: _, [] => false
  | a :: ps, b :: ls => a = b && chListPref ps ls

/-- Modelled library function: Python `str.startswith`. -/
def pyStartsWith (s pre : String) : Bool :=
  chListPref pre.toList s.toList

/-- One step list of Python `str.replace`: replace every non-overlapping
occurrence of `pat` (non-empty in all uses) by `rep`, scanning left to
right.  Structural recursion on a fuel bounded by the list length so the
kernel can evaluate it. -/
def replFuel (pat rep : List Char) : Nat → List Char → List Char
  | _, [] => []
  | 0, l => l
  | Nat.succ fuel, c :: rest =>
    if pat ≠ [] ∧ chListPref pat (c :: rest) then
      rep ++ replFuel pat rep fuel (List.drop (pat.length - 1) rest)
    else
      c :: replFuel pat rep fuel rest

/-- Modelled library function: Python `str.replace` (all occurrences,
left to right, non-overlapping). -/
def pyReplace (s pat rep : String) : String :=
  String.mk (replFuel pat.toList rep.toList s.toList.length s.toList)

/-- Characters treated as whitespace by the `str.strip` model. -/
def pyIsSpace (c : Char) : Bool :=
  c = ' ' || c = '\t' || c = '\n' || c = '\r' || c = '\x0b' || c = '\x0c'

/-- Modelled library function: Python `str.strip()` (trim whitespace from
both ends). -/
def pyStripStr (s : String) : String :=
  String.mk (((s.toList.dropWhile pyIsSpace).reverse.dropWhile pyIsSpace).reverse)

/-- Split a character list on a separator character; never returns `[]`
(the empty input yields `[[]]`, matching Python `"".split("/") == [""]`). -/
def splitChar (sep : Char) : List Char → List (List Char)
  | [] => [[]]
  | c :: rest =>
    if c = sep then
      [] :: splitChar sep rest
    else
      match splitChar sep rest with
      | [] => [[c]]
      | g :: gs => (c :: g) :: gs

/-- Python `path.split('/')[-1]`: the basename used by the renderer. -/
def pyBasename (s : String) : String :=
  String.mk ((splitChar '/' s.toList).getLastD [])

/-- Code-point lexicographic < on character lists (Python string
comparison as used by `sorted`). -/
def lexLt : List Char → List Char → Bool
  | [], [] => false
  | [], _ :: _ => true
  | _ :: _, [] => false
  | a :: as, b :: bs => if a = b then lexLt as bs else decide (a.toNat < b.toNat)

/-- Lexicographic ≤ on strings by code point (`a ≤ b` iff not `b < a`). -/
def strLe (a b : String) : Bool :=
  !(lexLt b.data a.data)

/-- Insert `x` into `acc` after every element `y` with `le y x`
(stable insertion). -/
def insertLe {α : Type} (le : α → α → Bool) (x : α) : List α → List α
  | [] => [x]
  | y :: ys => if le y x then y :: insertLe le x ys else x :: y :: ys

/-- Stable insertion sort, processing elements in input order; models
Python `sorted` (a stable sort) for a total preorder `le`. -/
def stableSort {α : Type} (le : α → α → Bool) (l : List α) : List α :=
  l.foldl (fun acc x => insertLe le x acc) []

/-! ## Timestamp handling (`parse_timestamp`) -/

/-- Numeric value of a two-digit sequence, if both characters are ASCII
digits. -/
def digits2 (a b : Char) : Option Nat :=
  if a.isDigit && b.isDigit then
    some ((a.toNat - 48) * 10 + (b.toNat - 48))
  else
    Option.none

/-- Numeric value of a four-digit sequence. -/
def digits4 (a b c d : Char) : Option Nat :=
  match digits2 a b, digits2 c d with
  | some hi, some lo => some (hi * 100 + lo)
  | _, _ => Option.none

/-- Gregorian leap-year test. -/
def isLeap (y : Nat) : Bool :=
  y % 4 = 0 && (y % 100 ≠ 0 || y % 400 = 0)

/-- Days in a month of a given year. -/
def daysInMonth (y m : Nat) : Nat :=
  if m = 2 then
    if isLeap y then 29 else 28
  else if m = 4 || m = 6 || m = 9 || m = 11 then 30
  else 31

/-- A wall-clock time of day, the only part of the parsed datetime that
`parse_timestamp` renders. -/
structure TimeHMS where
  hh : Nat
  mm : Nat
  ss : Nat
  deriving DecidableEq

/-- Is the remainder after the seconds field a valid UTC-offset suffix
(`""` or `±HH:MM`)?  (Subset of the offsets `datetime.fromisoformat`
accepts; the `Z` suffix never reaches it, `parse_timestamp` rewrites it
to `+00:00` first.) -/
def validOffsetTail (l : List Char) : Bool :=
  match l with
  | [] => true
  | [sign, h1, h2, ':', m1, m2] =>
    (sign = '+' || sign = '-') &&
      (match digits2 h1 h2, digits2 m1 m2 with
       | some oh, some om => oh < 24 && om < 60
       | _, _ => false)
  | _ => false

/-- Are the given year/month/day fields a valid calendar date with
`year ≥ 1` (as `datetime` requires)? -/
def validYMD (y m d : Nat) : Bool :=
  1 ≤ y && 1 ≤ m && m ≤ 12 && 1 ≤ d && d ≤ daysInMonth y m

/-- Modelled library function: `datetime.fromisoformat`, restricted to
the shapes `YYYY-MM-DD` and `YYYY-MM-DD<sep>HH:MM:SS[±HH:MM]` (any
single separator character, as in Python ≥ 3.11).  Abbreviated time
fields and fractional seconds are not modelled; no input in the claims
uses them.  Returns the time of day, or `Option.none` for `ValueError`. -/
def fromisoformat (s : String) : Option TimeHMS :=
  match s.toList with
  | [y1, y2, y3, y4, '-', mo1, mo2, '-', d1, d2] =>
    match digits4 y1 y2 y3 y4, digits2 mo1 mo2, digits2 d1 d2 with
    | some y, some mo, some d =>
      if validYMD y mo d then some ⟨0, 0, 0⟩ else Option.none
    | _, _, _ => Option.none
  | y1 :: y2 :: y3 :: y4 :: '-' :: mo1 :: mo2 :: '-' :: d1 :: d2 :: _sep ::
      h1 :: h2 :: ':' :: mi1 :: mi2 :: ':' :: s1 :: s2 :: rest =>
    match digits4 y1 y2 y3 y4, digits2 mo1 mo2, digits2 d1 d2,
        digits2 h1 h2, digits2 mi1 mi2, digits2 s1 s2 with
    | some y, some mo, some d, some h, some mi, some sec =>
      if validYMD y mo d && h < 24 && mi < 60 && sec < 60 && validOffsetTail rest then
        some ⟨h, mi, sec⟩
      else
        Option.none
    | _, _, _, _, _, _ => Option.none
  | _ => Option.none

/-- Zero-padded two-digit rendering (`strftime` field). -/
def pad2 (n : Nat) : String :=
  if n < 10 then "0" ++ toString n else toString n

/-- `HH:MM:SS` rendering of a time of day (`strftime('%H:%M:%S')`). -/
def fmtHMS (t : TimeHMS) : String :=
  pad2 t.hh ++ ":" ++ pad2 t.mm ++ ":" ++ pad2 t.ss

/-- `parse_timestamp(ts_str)`: replace `Z` by `+00:00`, parse as ISO
date-time, format the time of day as `HH:MM:SS`.  Applied to a non-string
(e.g. the integer timestamp of a malformed record) `.replace` raises
`AttributeError`; an unparsable string raises `ValueError` inside
`fromisoformat`. -/
def parse_timestamp (ts : Py) : Except PyErr String :=
  match ts with
  | Py.str s =>
    match fromisoformat (pyReplace s "Z" "+00:00") with
    | some t => Except.ok (fmtHMS t)
    | Option.none => Except.error PyErr.valueError
  | _ => Except.error PyErr.attributeError

/-! ## Message-text extraction (`extract_message_text`) -/

/-- Python `str.strip` on a `Py` value: `AttributeError` on non-strings
(reached when a content block holds a non-string `text` field). -/
def pyStripPy (v : Py) : Except PyErr String :=
  match v with
  | Py.str s => Except.ok (pyStripStr s)
  | _ => Except.error PyErr.attributeError

/-- Remove the six command-delimiter tag markers from a raw string
content (the `.replace` chain of `extract_message_text`). -/
def stripCommandTags (s : String) : String :=
  let t1 := pyReplace s "<command-message>" ""
  let t2 := pyReplace t1 "</command-message>" ""
  let t3 := pyReplace t2 "<command-name>" ""
  let t4 := pyReplace t3 "</command-name>" ""
  let t5 := pyReplace t4 "<command-args>" ""
  pyReplace t5 "</command-args>" ""

/-- Scan of a structured content list: return the stripped `text` field
of the first dict element whose `type` equals `"text"`; `""` when no
element matches (the trailing `return ""`). -/
def firstTextBlock : List Py → Except PyErr String
  | [] => Except.ok ""
  | item :: rest =>
    match item with
    | Py.dict kvs =>
      if (dictLookup kvs "type").getD Py.none = Py.str "text" then
        pyStripPy ((dictLookup kvs "text").getD (Py.str ""))
      else
        firstTextBlock rest
    | _ => firstTextBlock rest

/-- `extract_message_text(content)`: strings have command tags removed
and are stripped; lists are scanned for their first text block; any
other shape yields `""`. -/
def extract_message_text (content : Py) : Except PyErr String :=
  match content with
  | Py.str s => Except.ok (pyStripStr (stripCommandTags s))
  | Py.list items => firstTextBlock items
  | _ => Except.ok ""

/-! ## Event records and the parsing pass (`parse_jsonl`) -/

/-- One emitted record: the dicts appended to `events` carry a formatted
time plus either user text, assistant text, or a tool name with its
`input` payload. -/
inductive Event where
  | user (time : String) (text : String)
  | assistant (time : String) (text : String)
  | tool (time : String) (toolName : Py) (details : Py)
  deriving DecidableEq

/-- The formatted `time` field of a record. -/
def Event.timeOf : Event → String
  | Event.user t _ => t
  | Event.assistant t _ => t
  | Event.tool t _ _ => t

/-- Is the record a user message?  (Used by the statistics line.) -/
def Event.isUser : Event → Bool
  | Event.user _ _ => true
  | _ => false

/-- Increment the counter entry for `k` (Python
`defaultdict(int)[k] += 1`), keeping first-insertion order of keys. -/
def bump (c : List (Py × Nat)) (k : Py) : List (Py × Nat) :=
  match c with
  | [] => [(k, 1)]
  | (k2, n) :: rest => if k2 = k then (k2, n + 1) :: rest else (k2, n) :: bump rest k

/-- The count recorded for `k` (0 when absent, as for `defaultdict(int)`). -/
def countOf (c : List (Py × Nat)) (k : Py) : Nat :=
  match c with
  | [] => 0
  | (k2, n) :: rest => if k2 = k then n else countOf rest k

/-- Add an element to a set modelled as a duplicate-free list
(`set.add`): no change when already present. -/
def insertIfAbsent (s : List Py) (v : Py) : List Py :=
  if v ∈ s then s else s ++ [v]

/-- The accumulator of the parsing pass: ordered events, the tool-usage
counter, and the modified-files set. -/
structure ParseState where
  events : List Event
  tool_uses : List (Py × Nat)
  files_modified : List Py
  deriving DecidableEq

/-- The state at the start of `parse_jsonl`. -/
def initState : ParseState :=
  ⟨[], [], []⟩

/-- Python membership test `tool_name in ['Edit', 'Write', 'MultiEdit']`. -/
def isMutatingTool (v : Py) : Bool :=
  v = Py.str "Edit" || v = Py.str "Write" || v = Py.str "MultiEdit"

/-- The body of `for item in content`: one iteration per content block of
an assistant entry, in block order.  A `tool_use` block increments the
tool counter, conditionally records a modified file, and appends a tool
record; a `text` block with non-empty stripped text appends an assistant
record; other blocks do nothing. -/
def processItems (timestamp : Py) (st : ParseState) : List Py → Except PyErr ParseState
  | [] => Except.ok st
  | item :: rest => do
    let ty ← pyGetD item "type" Py.none
    if ty = Py.str "tool_use" then do
      let tool_name ← pyGetD item "name" (Py.str "")
      let tu := bump st.tool_uses tool_name
      let files ←
        if isMutatingTool tool_name then do
          let inp ← pyGetD item "input" (Py.dict [])
          let fp ← pyGetD inp "file_path" (Py.str "")
          pure (if pyTruthy fp then insertIfAbsent st.files_modified fp else st.files_modified)
        else
          pure st.files_modified
      let time ← parse_timestamp timestamp
      let details ← pyGetD item "input" (Py.dict [])
      processItems timestamp
        ⟨st.events ++ [Event.tool time tool_name details], tu, files⟩ rest
    else if ty = Py.str "text" then do
      let raw ← pyGetD item "text" (Py.str "")
      let text ← pyStripPy raw
      if text ≠ "" then do
        let time ← parse_timestamp timestamp
        processItems timestamp
          ⟨st.events ++ [Event.assistant time text], st.tool_uses, st.files_modified⟩ rest
      else
        processItems timestamp st rest
    else
      processItems timestamp st rest

/-- Processing of one input line inside the `try` block: a line that
fails JSON decoding (`Option.none`) is skipped by the
`except json.JSONDecodeError: continue` handler; a decoded line is
classified by its `type` field.  Any other exception escapes. -/
def processLine (st : ParseState) (line : Option Py) : Except PyErr ParseState :=
  match line with
  | Option.none => Except.ok st
  | some event => do
    let timestamp ← pyGetD event "timestamp" (Py.str "")
    let event_type ← pyGetD event "type" (Py.str "")
    if event_type = Py.str "user" then do
      let msg ← pyGetD event "message" (Py.dict [])
      let content ← pyGetD msg "content" (Py.str "")
      let text ← extract_message_text content
      if text ≠ "" ∧ pyStartsWith text "is running…" = false then do
        let time ← parse_timestamp timestamp
        pure ⟨st.events ++
          [Event.user time (if text.length > 100 then text.take 100 ++ "..." else text)],
          st.tool_uses, st.files_modified⟩
      else
        pure st
    else if event_type = Py.str "assistant" then do
      let msg ← pyGetD event "message" (Py.dict [])
      let content ← pyGetD msg "content" (Py.list [])
      match content with
      | Py.list items => processItems timestamp st items
      | _ => pure st
    else
      pure st

/-- The `for line in f` loop of `parse_jsonl`, from a given state. -/
def parseLines (st : ParseState) : List (Option Py) → Except PyErr ParseState
  | [] => Except.ok st
  | l :: ls => do
    let st2 ← processLine st l
    parseLines st2 ls

/-- `parse_jsonl(file_path)`: run the loop from the empty accumulator. -/
def parse_jsonl (file : List (Option Py)) : Except PyErr ParseState :=
  parseLines initState file

/-! ## Rendering (`generate_markdown`) -/

/-- `file_path.split('/')[-1]` applied to a `Py` value: basename of a
string, `AttributeError` on a non-string (no `.split` method). -/
def pyBasenamePy (v : Py) : Except PyErr String :=
  match v with
  | Py.str s => Except.ok (pyBasename s)
  | _ => Except.error PyErr.attributeError

/-- One timeline line for a record, per the `for event in events` body:
user and assistant messages always render (assistant text truncated to
200 characters at render time); tool records render one of four
tool-specific lines, and any other tool name renders nothing. -/
def renderEvent (e : Event) : Except PyErr String :=
  match e with
  | Event.user time text =>
    Except.ok ("\n### [" ++ time ++ "] User\n> " ++ text ++ "\n")
  | Event.assistant _time text =>
    if text.length > 200 then
      Except.ok ("\n**Claude**: " ++ text.take 200 ++ "..." ++ "\n")
    else
      Except.ok ("\n**Claude**: " ++ text ++ "\n")
  | Event.tool _time tool details =>
    if tool = Py.str "Bash" then do
      let cmd ← pyGetD details "command" (Py.str "")
      let n ← pyLen cmd
      if n > 80 then do
        let c ← pySliceTo cmd 80
        pure ("- 🔧 Executed: `" ++ pyFmt c ++ "...`\n")
      else
        pure ("- 🔧 Executed: `" ++ pyFmt cmd ++ "`\n")
    else if isMutatingTool tool then do
      let fp ← pyGetD details "file_path" (Py.str "")
      let base ← pyBasenamePy fp
      pure ("- 📝 Modified: `" ++ base ++ "`\n")
    else if tool = Py.str "Read" then do
      let fp ← pyGetD details "file_path" (Py.str "")
      let base ← pyBasenamePy fp
      pure ("- 👁️ Read: `" ++ base ++ "`\n")
    else if tool = Py.str "Grep" then do
      let p ← pyGetD details "pattern" (Py.str "")
      pure ("- 🔍 Searched for: `" ++ pyFmt p ++ "`\n")
    else
      pure ""

/-- The timeline: per-record renderings concatenated in record order. -/
def renderTimeline : List Event → Except PyErr String
  | [] => Except.ok ""
  | e :: rest => do
    pure ((← renderEvent e) ++ (← renderTimeline rest))

/-- The fixed report header with the duration line. -/
def mkHeader (startTime endTime : String) : String :=
  "# Claude Session Summary\n\n**Date**: July 27, 2025\n**Duration**: "
    ++ startTime ++ " - " ++ endTime
    ++ "\n\n## Session Overview\n\nThis session focused on redesigning Patina\x27s session management system.\n\n## Timeline\n\n"

/-- The `### Tool Usage:` lines, one per counter entry in the given
order. -/
def toolUsageLines : List (Py × Nat) → String
  | [] => ""
  | (t, n) :: rest => "- " ++ pyFmt t ++ ": " ++ toString n ++ " times\n" ++ toolUsageLines rest

/-- `sorted(tool_uses.items(), key=lambda x: x[1], reverse=True)`:
stable sort by descending count. -/
def sortToolUses (tu : List (Py × Nat)) : List (Py × Nat) :=
  stableSort (fun a b => decide (b.2 ≤ a.2)) tu

/-- The `## Session Statistics` section (user-message count, modified
file count, tool usage list). -/
def statsSection (events : List Event) (tu : List (Py × Nat)) (files : List Py) : String :=
  "\n## Session Statistics\n\n"
    ++ "- **Total interactions**: " ++ toString (events.filter Event.isUser).length ++ "\n"
    ++ "- **Files modified**: " ++ toString files.length ++ "\n"
    ++ "\n### Tool Usage:\n"
    ++ toolUsageLines (sortToolUses tu)

/-- Python `a < b` on values of the modified-files set: strings compare
lexicographically by code point, integers numerically, any other pair
raises `TypeError`.  (Other comparable Python pairs, e.g. `bool`/`int`,
do not occur in the claims.) -/
def pyLt (a b : Py) : Except PyErr Bool :=
  match a, b with
  | Py.str x, Py.str y => Except.ok (lexLt x.data y.data)
  | Py.int x, Py.int y => Except.ok (decide (x < y))
  | _, _ => Except.error PyErr.typeError

/-- Stable insertion of `x` into an already-sorted accumulator, using
Python `<` comparisons (placed before the first strictly greater
element). -/
def insertPy (x : Py) : List Py → Except PyErr (List Py)
  | [] => Except.ok [x]
  | y :: ys => do
    let lt ← pyLt x y
    if lt then
      pure (x :: y :: ys)
    else
      pure (y :: (← insertPy x ys))

/-- Sorting loop over the remaining input, from an accumulator. -/
def sortPyFrom (acc : List Py) : List Py → Except PyErr (List Py)
  | [] => Except.ok acc
  | x :: rest => do
    sortPyFrom (← insertPy x acc) rest

/-- Modelled library function: `sorted(files_modified)` — a stable
comparison sort with Python `<`; raises `TypeError` when it compares an
unsupported pair. -/
def pySorted (l : List Py) : Except PyErr (List Py) :=
  sortPyFrom [] l

/-- The `- \`path\`` lines of the files section. -/
def filesLines : List Py → String
  | [] => ""
  | p :: rest => "- `" ++ pyFmt p ++ "`\n" ++ filesLines rest

/-- The `## Files Modified` section: empty output when the set is empty,
otherwise a header plus one line per path in sorted order. -/
def filesSection (files : List Py) : Except PyErr String :=
  if files.isEmpty then
    Except.ok ""
  else do
    let sortedFiles ← pySorted files
    pure ("\n## Files Modified\n\n" ++ filesLines sortedFiles)

/-- `generate_markdown(events, tool_uses, files_modified)`: the literal
string `"No events found in session."` when no records were emitted,
otherwise header, timeline, statistics and files sections concatenated. -/
def generate_markdown (events : List Event) (tu : List (Py × Nat)) (files : List Py) :
    Except PyErr String :=
  match events with
  | [] => Except.ok "No events found in session."
  | e0 :: rest => do
    let tl ← renderTimeline (e0 :: rest)
    let fs ← filesSection files
    pure (mkHeader (Event.timeOf e0) (Event.timeOf (rest.getLastD e0))
      ++ tl ++ statsSection (e0 :: rest) tu files ++ fs)

/-! ## Command-line entry point (`__main__`) -/

/-- Observable outcome of a program run: bytes written to standard
output, bytes written to standard error, and the exit code. -/
structure MainResult where
  stdoutText : String
  stderrText : String
  exitCode : Nat
  deriving DecidableEq

/-- The `if __name__ == "__main__"` block: with an argument count other
than exactly 2 (program name plus one argument), print the usage message
— via plain `print`, i.e. to standard output — and exit with code 1;
otherwise parse the file and print the markdown (`print` appends a
newline).  An uncaught `PyErr` propagates as the `Except.error` case. -/
def pyMain (argv : List String) (file : List (Option Py)) : Except PyErr MainResult :=
  if argv.length ≠ 2 then
    Except.ok ⟨"Usage: python parse_session.py <jsonl_file>\n", "", 1⟩
  else do
    let st ← parse_jsonl file
    let md ← generate_markdown st.events st.tool_uses st.files_modified
    pure ⟨md ++ "\n", "", 0⟩

/-! ## Input shapes and auxiliary pure definitions used by the theorems -/

/-- A decoded `user` line with the given timestamp value and
`message.content`. -/
def userEvent (tsv content : Py) : Py :=
  Py.dict [("timestamp", tsv), ("type", Py.str "user"),
    ("message", Py.dict [("content", content)])]

/-- A decoded `assistant` line with the given timestamp value and content
blocks. -/
def assistantEvent (tsv : Py) (blocks : List Py) : Py :=
  Py.dict [("timestamp", tsv), ("type", Py.str "assistant"),
    ("message", Py.dict [("content", Py.list blocks)])]

/-- A `tool_use` content block with a `name` and an `input` payload. -/
def toolUseBlock (name input : Py) : Py :=
  Py.dict [("type", Py.str "tool_use"), ("name", name), ("input", input)]

/-- A `tool_use` content block with no `input` key. -/
def toolUseBlockNoInput (name : Py) : Py :=
  Py.dict [("type", Py.str "tool_use"), ("name", name)]

/-- Pure-string counterpart of `insertPy` (the sorting of the
modified-files set restricted to string elements). -/
def insertStr (x : String) : List String → List String
  | [] => [x]
  | y :: ys => if lexLt x.data y.data then x :: y :: ys else y :: insertStr x ys

/-- Pure-string counterpart of `sortPyFrom`. -/
def sortStrsFrom (acc : List String) : List String → List String
  | [] => acc
  | x :: rest => sortStrsFrom (insertStr x acc) rest

/-- A string of `n` repetitions of `a`, for boundary-length test texts. -/
def aRun (n : Nat) : String :=
  String.mk (List.replicate n 'a')

/-! ## Helper lemmas -/

theorem ebind_ok {α β : Type} (a : α) (f : α → Except PyErr β) :
    (Except.ok a >>= f) = f a := rfl

theorem ebind_err {α β : Type} (e : PyErr) (f : α → Except PyErr β) :
    ((Except.error e : Except PyErr α) >>= f) = Except.error e := rfl

theorem epure_eq {α : Type} (a : α) : (pure a : Except PyErr α) = Except.ok a := rfl

theorem countOf_bump (c : List (Py × Nat)) (k : Py) :
    countOf (bump c k) k = countOf c k + 1 := by
  induction c with
  | nil => simp [bump, countOf]
  | cons hd tl ih =>
    obtain ⟨k2, n⟩ := hd
    by_cases h : k2 = k <;> simp [bump, countOf, h, ih]

theorem self_mem_insertIfAbsent (s : List Py) (v : Py) :
    v ∈ insertIfAbsent s v := by
  by_cases h : v ∈ s <;> simp [insertIfAbsent, h]

theorem bump_self_mem (c : List (Py × Nat)) (k : Py) :
    (k, countOf c k + 1) ∈ bump c k := by
  induction c with
  | nil => simp [bump, countOf]
  | cons hd tl ih =>
    obtain ⟨k2, n⟩ := hd
    by_cases h : k2 = k
    · subst h
      simp [bump, countOf]
    · simp [bump, countOf, h, ih]

theorem insertLe_perm {α : Type} (le : α → α → Bool) (x : α) (l : List α) :
    (insertLe le x l).Perm (x :: l) := by
  induction l with
  | nil => rfl
  | cons y ys ih =>
    by_cases h : le y x = true
    · simp only [insertLe, h, if_true]
      exact (ih.cons y).trans (List.Perm.swap x y ys)
    · simp only [insertLe, h, if_false]
      exact List.Perm.refl _

theorem foldl_insertLe_perm {α : Type} (le : α → α → Bool) (l : List α) :
    ∀ acc, (List.foldl (fun acc x => insertLe le x acc) acc l).Perm (acc ++ l) := by
  induction l with
  | nil => intro acc; simp
  | cons x xs ih =>
    intro acc
    have h1 := ih (insertLe le x acc)
    have h2 : (insertLe le x acc ++ xs).Perm ((x :: acc) ++ xs) :=
      (insertLe_perm le x acc).append_right xs
    have h3 : (acc ++ x :: xs).Perm (x :: (acc ++ xs)) := List.perm_middle
    simpa using (h1.trans h2).trans h3.symm

theorem stableSort_perm {α : Type} (le : α → α → Bool) (l : List α) :
    (stableSort le l).Perm l := by
  simpa [stableSort] using foldl_insertLe_perm le l []

theorem mem_sortToolUses (tu : List (Py × Nat)) (p : Py × Nat) :
    p ∈ sortToolUses tu ↔ p ∈ tu :=
  (stableSort_perm _ tu).mem_iff

theorem toolUsageLines_has_line (l : List (Py × Nat)) (t : Py) (n : Nat)
    (h : (t, n) ∈ l) :
    ∃ pre post, toolUsageLines l =
      pre ++ ("- " ++ pyFmt t ++ ": " ++ toString n ++ " times\n") ++ post := by
  induction l with
  | nil => cases h
  | cons hd tl ih =>
    obtain ⟨t2, n2⟩ := hd
    rcases List.mem_cons.mp h with heq | hmem
    · obtain ⟨rfl, rfl⟩ := Prod.mk.injEq .. ▸ heq
      exact ⟨"", toolUsageLines tl, by simp [toolUsageLines]⟩
    · obtain ⟨pre, post, hp⟩ := ih hmem
      exact ⟨"- " ++ pyFmt t2 ++ ": " ++ toString n2 ++ " times\n" ++ pre, post,
        by simp [toolUsageLines, hp, String.append_assoc]⟩

theorem insertIfAbsent_nodup (s : List Py) (v : Py) (h : s.Nodup) :
    (insertIfAbsent s v).Nodup := by
  by_cases hm : v ∈ s
  · simpa [insertIfAbsent, hm] using h
  · simp [insertIfAbsent, hm, List.nodup_append, h]

theorem parseLines_all_none (lines : List (Option Py)) :
    ∀ st, (∀ l ∈ lines, l = Option.none) → parseLines st lines = Except.ok st := by
  induction lines with
  | nil => intro st _; rfl
  | cons l ls ih =>
    intro st h
    have hl : l = Option.none := h l (by simp)
    subst hl
    simp [parseLines, processLine, ebind_ok]
    exact ih st (fun x hx => h x (by simp [hx]))

theorem processItems_evolution (ts : Py) (items : List Py) :
    ∀ st st2, processItems ts st items = Except.ok st2 →
      (∃ new, st2.events = st.events ++ new) ∧
      (st.files_modified.Nodup → st2.files_modified.Nodup) := by
  induction items with
  | nil =>
    intro st st2 h
    simp only [processItems] at h
    cases h
    exact ⟨⟨[], by simp⟩, fun hn => hn⟩
  | cons item rest ih =>
    intro st st2 h
    simp only [processItems] at h
    cases hty : pyGetD item "type" Py.none with
    | error e => rw [hty, ebind_err] at h; cases h
    | ok ty =>
      rw [hty, ebind_ok] at h
      by_cases h1 : ty = Py.str "tool_use"
      · rw [if_pos h1] at h
        cases hname : pyGetD item "name" (Py.str "") with
        | error e => rw [hname, ebind_err] at h; cases h
        | ok nm =>
          rw [hname, ebind_ok] at h
          by_cases him : isMutatingTool nm = true
          · rw [if_pos him] at h
            cases hinp : pyGetD item "input" (Py.dict []) with
            | error e => rw [hinp] at h; simp only [ebind_err] at h; cases h
            | ok inp =>
              rw [hinp, ebind_ok] at h
              cases hfp : pyGetD inp "file_path" (Py.str "") with
              | error e => rw [hfp] at h; simp only [ebind_err] at h; cases h
              | ok fp =>
                rw [hfp, ebind_ok, epure_eq, ebind_ok] at h
                cases htime : parse_timestamp ts with
                | error e => rw [htime, ebind_err] at h; cases h
                | ok time =>
                  rw [htime, ebind_ok, ebind_ok] at h
                  obtain ⟨⟨new, hev⟩, hnd⟩ := ih _ _ h
                  refine ⟨⟨Event.tool time nm inp :: new, by simp [hev]⟩, ?_⟩
                  intro hn
                  apply hnd
                  by_cases htr : pyTruthy fp = true
                  · simpa [htr] using insertIfAbsent_nodup _ fp hn
                  · simpa [htr] using hn
          · rw [if_neg him, epure_eq, ebind_ok] at h
            cases htime : parse_timestamp ts with
            | error e => rw [htime, ebind_err] at h; cases h
            | ok time =>
              rw [htime, ebind_ok] at h
              cases hdet : pyGetD item "input" (Py.dict []) with
              | error e => rw [hdet, ebind_err] at h; cases h
              | ok details =>
                rw [hdet, ebind_ok] at h
                obtain ⟨⟨new, hev⟩, hnd⟩ := ih _ _ h
                exact ⟨⟨Event.tool time nm details :: new, by simp [hev]⟩, fun hn => hnd hn⟩
      · rw [if_neg h1] at h
        by_cases h2 : ty = Py.str "text"
        · rw [if_pos h2] at h
          cases hraw : pyGetD item "text" (Py.str "") with
          | error e => rw [hraw, ebind_err] at h; cases h
          | ok raw =>
            rw [hraw, ebind_ok] at h
            cases hstr : pyStripPy raw with
            | error e => rw [hstr, ebind_err] at h; cases h
            | ok text =>
              rw [hstr, ebind_ok] at h
              by_cases h3 : text ≠ ""
              · rw [if_pos h3] at h
                cases htime : parse_timestamp ts with
                | error e => rw [htime, ebind_err] at h; cases h
                | ok time =>
                  rw [htime, ebind_ok] at h
                  obtain ⟨⟨new, hev⟩, hnd⟩ := ih _ _ h
                  exact ⟨⟨Event.assistant time text :: new, by simp [hev]⟩, fun hn => hnd hn⟩
              · rw [if_neg h3] at h
                exact ih _ _ h
        · rw [if_neg h2] at h
          exact ih _ _ h

theorem processLine_evolution (st : ParseState) (l : Option Py) (st2 : ParseState)
    (h : processLine st l = Except.ok st2) :
    (∃ new, st2.events = st.events ++ new) ∧
    (st.files_modified.Nodup → st2.files_modified.Nodup) := by
  match l with
  | Option.none =>
    simp only [processLine] at h
    cases h
    exact ⟨⟨[], by simp⟩, fun hn => hn⟩
  | some event =>
    simp only [processLine] at h
    cases hts : pyGetD event "timestamp" (Py.str "") with
    | error e => rw [hts, ebind_err] at h; cases h
    | ok tsv =>
      rw [hts, ebind_ok] at h
      cases hty : pyGetD event "type" (Py.str "") with
      | error e => rw [hty, ebind_err] at h; cases h
      | ok ty =>
        rw [hty, ebind_ok] at h
        by_cases h1 : ty = Py.str "user"
        · rw [if_pos h1] at h
          cases hmsg : pyGetD event "message" (Py.dict []) with
          | error e => rw [hmsg, ebind_err] at h; cases h
          | ok msg =>
            rw [hmsg, ebind_ok] at h
            cases hc : pyGetD msg "content" (Py.str "") with
            | error e => rw [hc, ebind_err] at h; cases h
            | ok content =>
              rw [hc, ebind_ok] at h
              cases hx : extract_message_text content with
              | error e => rw [hx, ebind_err] at h; cases h
              | ok text =>
                rw [hx, ebind_ok] at h
                by_cases h2 : text ≠ "" ∧ pyStartsWith text "is running…" = false
                · rw [if_pos h2] at h
                  cases htime : parse_timestamp tsv with
                  | error e => rw [htime, ebind_err] at h; cases h
                  | ok time =>
                    rw [htime, ebind_ok, epure_eq] at h
                    cases h
                    exact ⟨⟨_, rfl⟩, fun hn => hn⟩
                · rw [if_neg h2, epure_eq] at h
                  cases h
                  exact ⟨⟨[], by simp⟩, fun hn => hn⟩
        · rw [if_neg h1] at h
          by_cases h2 : ty = Py.str "assistant"
          · rw [if_pos h2] at h
            cases hmsg : pyGetD event "message" (Py.dict []) with
            | error e => rw [hmsg, ebind_err] at h; cases h
            | ok msg =>
              rw [hmsg, ebind_ok] at h
              cases hc : pyGetD msg "content" (Py.list []) with
              | error e => rw [hc, ebind_err] at h; cases h
              | ok content =>
                rw [hc, ebind_ok] at h
                match content with
                | Py.list items => exact processItems_evolution tsv items st st2 h
                | Py.none | Py.bool _ | Py.int _ | Py.str _ | Py.dict _ =>
                  simp only [epure_eq] at h
                  cases h
                  exact ⟨⟨[], by simp⟩, fun hn => hn⟩
          · rw [if_neg h2, epure_eq] at h
            cases h
            exact ⟨⟨[], by simp⟩, fun hn => hn⟩

theorem parseLines_evolution (ls : List (Option Py)) :
    ∀ st st2, parseLines st ls = Except.ok st2 →
      (∃ new, st2.events = st.events ++ new) ∧
      (st.files_modified.Nodup → st2.files_modified.Nodup) := by
  induction ls with
  | nil =>
    intro st st2 h
    simp only [parseLines] at h
    cases h
    exact ⟨⟨[], by simp⟩, fun hn => hn⟩
  | cons l rest ih =>
    intro st st2 h
    simp only [parseLines] at h
    cases hl : processLine st l with
    | error e => rw [hl, ebind_err] at h; cases h
    | ok st1 =>
      rw [hl, ebind_ok] at h
      obtain ⟨⟨new1, hev1⟩, hnd1⟩ := processLine_evolution st l st1 hl
      obtain ⟨⟨new2, hev2⟩, hnd2⟩ := ih st1 st2 h
      exact ⟨⟨new1 ++ new2, by simp [hev2, hev1]⟩, fun hn => hnd2 (hnd1 hn)⟩

theorem renderTimeline_append (es1 es2 : List Event) :
    renderTimeline (es1 ++ es2) =
      (renderTimeline es1 >>= fun a => renderTimeline es2 >>= fun b => pure (a ++ b)) := by
  induction es1 with
  | nil =>
    cases h2 : renderTimeline es2 <;>
      simp [renderTimeline, h2, ebind_ok, ebind_err, epure_eq]
  | cons e es ih =>
    simp only [List.cons_append, renderTimeline]
    cases ha : renderEvent e with
    | error er => simp [ha, ebind_err]
    | ok a =>
      cases h1 : renderTimeline es <;> cases h2 : renderTimeline es2 <;>
        simp [ha, h1, h2, ih, ebind_ok, ebind_err, epure_eq, String.append_assoc]

theorem lexLt_asymm : ∀ a b : List Char, lexLt a b = true → lexLt b a = false := by
  intro a
  induction a with
  | nil =>
    intro b h
    cases b with
    | nil => simp [lexLt] at h
    | cons y ys => simp [lexLt]
  | cons x xs ih =>
    intro b h
    cases b with
    | nil => simp [lexLt] at h
    | cons y ys =>
      by_cases hxy : x = y
      · subst hxy
        simp only [lexLt, if_pos rfl] at h ⊢
        exact ih ys h
      · have hyx : y ≠ x := fun hh => hxy hh.symm
        simp only [lexLt, if_neg hxy] at h
        simp only [lexLt, if_neg hyx]
        simp only [decide_eq_true_eq] at h
        simp only [decide_eq_false_iff_not]
        omega

theorem lexLt_trans : ∀ a b c : List Char,
    lexLt a b = true → lexLt b c = true → lexLt a c = true := by
  intro a
  induction a with
  | nil =>
    intro b c hab hbc
    cases c with
    | cons z zs => simp [lexLt]
    | nil =>
      cases b with
      | nil => simp [lexLt] at hab
      | cons y ys => simp [lexLt] at hbc
  | cons x xs ih =>
    intro b c hab hbc
    cases b with
    | nil => simp [lexLt] at hab
    | cons y ys =>
      cases c with
      | nil => simp [lexLt] at hbc
      | cons z zs =>
        by_cases hxy : x = y
        · subst hxy
          simp only [lexLt, if_pos rfl] at hab
          by_cases hyz : x = z
          · subst hyz
            simp only [lexLt, if_pos rfl] at hbc ⊢
            exact ih ys zs hab hbc
          · simp only [lexLt, if_neg hyz] at hbc ⊢
            exact hbc
        · simp only [lexLt, if_neg hxy] at hab
          simp only [decide_eq_true_eq] at hab
          by_cases hyz : y = z
          · subst hyz
            simp only [lexLt, if_neg hxy]
            simp only [decide_eq_true_eq]
            exact hab
          · simp only [lexLt, if_neg hyz] at hbc
            simp only [decide_eq_true_eq] at hbc
            have hxz : x ≠ z := by
              intro he
              subst he
              omega
            simp only [lexLt, if_neg hxz]
            simp only [decide_eq_true_eq]
            omega

theorem insertStr_perm (x : String) (l : List String) :
    (insertStr x l).Perm (x :: l) := by
  induction l with
  | nil => rfl
  | cons y ys ih =>
    by_cases h : lexLt x.data y.data = true
    · simp [insertStr, h]
    · simp only [insertStr, h, if_false]
      exact (ih.cons y).trans (List.Perm.swap x y ys)

theorem insertStr_sorted (x : String) (l : List String)
    (h : l.Pairwise (fun a b => strLe a b = true)) :
    (insertStr x l).Pairwise (fun a b => strLe a b = true) := by
  induction l with
  | nil => simp [insertStr]
  | cons y ys ih =>
    obtain ⟨hy, hys⟩ := List.pairwise_cons.mp h
    by_cases hlt : lexLt x.data y.data = true
    · simp only [insertStr, hlt, if_true]
      refine List.pairwise_cons.mpr ⟨?_, h⟩
      intro z hz
      rcases List.mem_cons.mp hz with rfl | hzys
      · simp [strLe, lexLt_asymm _ _ hlt]
      · have hyz := hy z hzys
        simp only [strLe, Bool.not_eq_true] at hyz ⊢
        cases hzx : lexLt z.data x.data with
        | false => rfl
        | true => rw [lexLt_trans _ _ _ hzx hlt] at hyz; cases hyz
    · simp only [insertStr, hlt, if_false]
      refine List.pairwise_cons.mpr ⟨?_, ih hys⟩
      intro z hz
      have hz2 := (insertStr_perm x ys).mem_iff.mp hz
      rcases List.mem_cons.mp hz2 with rfl | hzys
      · simp only [strLe, Bool.not_eq_true]
        simpa using hlt
      · exact hy z hzys

theorem sortStrsFrom_perm (l : List String) :
    ∀ acc, (sortStrsFrom acc l).Perm (acc ++ l) := by
  induction l with
  | nil => intro acc; simp [sortStrsFrom]
  | cons x xs ih =>
    intro acc
    have h1 := ih (insertStr x acc)
    have h2 : (insertStr x acc ++ xs).Perm ((x :: acc) ++ xs) :=
      (insertStr_perm x acc).append_right xs
    have h3 : (acc ++ x :: xs).Perm (x :: (acc ++ xs)) := List.perm_middle
    simpa [sortStrsFrom] using (h1.trans h2).trans h3.symm

theorem sortStrsFrom_sorted (l : List String) :
    ∀ acc, acc.Pairwise (fun a b => strLe a b = true) →
      (sortStrsFrom acc l).Pairwise (fun a b => strLe a b = true) := by
  induction l with
  | nil => intro acc h; simpa [sortStrsFrom] using h
  | cons x xs ih =>
    intro acc h
    exact ih (insertStr x acc) (insertStr_sorted x acc h)

theorem insertPy_str (x : String) (l : List String) :
    insertPy (Py.str x) (l.map Py.str) = Except.ok ((insertStr x l).map Py.str) := by
  induction l with
  | nil => rfl
  | cons y ys ih =>
    simp only [List.map_cons, insertPy, pyLt, ebind_ok]
    by_cases h : lexLt x.data y.data = true
    · simp [insertStr, h, epure_eq]
    · simp only [Bool.not_eq_true] at h
      simp [insertStr, h, ih, ebind_ok, epure_eq]

theorem sortPyFrom_str (l : List String) : ∀ acc : List String,
    sortPyFrom (acc.map Py.str) (l.map Py.str) =
      Except.ok ((sortStrsFrom acc l).map Py.str) := by
  induction l with
  | nil => intro acc; rfl
  | cons x xs ih =>
    intro acc
    simp only [List.map_cons, sortPyFrom, insertPy_str, ebind_ok, sortStrsFrom]
    exact ih (insertStr x acc)

/-! ## Claim theorems -/

/-- C1: truncation law at the three boundaries.  An emitted user-message
text is stored truncated to its first 100 characters plus an ellipsis
marker exactly when its length exceeds 100, and the user timeline line
shows the stored text verbatim; an assistant text renders its first 200
characters plus an ellipsis marker exactly when longer than 200; a Bash
command renders its first 80 characters plus an ellipsis marker exactly
when longer than 80.  In each `if`, a text of exactly the boundary length
is shown untruncated. -/
theorem truncation_boundaries :
    (∀ (st : ParseState) (tsv content : Py) (t time : String),
      extract_message_text content = Except.ok t →
      t ≠ "" →
      pyStartsWith t "is running…" = false →
      parse_timestamp tsv = Except.ok time →
      processLine st (some (userEvent tsv content)) =
        Except.ok ⟨st.events ++
          [Event.user time (if t.length > 100 then t.take 100 ++ "..." else t)],
          st.tool_uses, st.files_modified⟩) ∧
    (∀ time x, renderEvent (Event.user time x) =
      Except.ok ("\n### [" ++ time ++ "] User\n> " ++ x ++ "\n")) ∧
    (∀ time t, renderEvent (Event.assistant time t) =
      Except.ok ("\n**Claude**: " ++ (if t.length > 200 then t.take 200 ++ "..." else t) ++ "\n")) ∧
    (∀ time c, renderEvent (Event.tool time (Py.str "Bash") (Py.dict [("command", Py.str c)])) =
      Except.ok ("- 🔧 Executed: `" ++ (if c.length > 80 then c.take 80 ++ "..." else c) ++ "`\n")) := by
  refine ⟨?_, ?_, ?_, ?_⟩
  · intro st tsv content t time hx hne hpre hts
    simp [processLine, userEvent, pyGetD, dictLookup, hx, hts, hne, hpre, ebind_ok, epure_eq]
  · intro time x
    simp [renderEvent]
  · intro time t
    by_cases h : t.length > 200 <;> simp [renderEvent, h, String.append_assoc]
  · intro time c
    by_cases h : c.length > 80 <;>
      simp [renderEvent, pyGetD, dictLookup, pyLen, pySliceTo, pyFmt, ebind_ok, epure_eq, h,
        String.append_assoc, show ("..." : String) ++ "`\n" = "...`\n" from rfl]

set_option maxRecDepth 40000 in
/-- Witness for C1 at the boundary lengths 101/100, 201/200 and 81/80. -/
theorem truncation_boundaries_witness :
    (processLine initState (some (userEvent (Py.str "2025-07-27T10:00:00Z") (Py.str (aRun 101)))) =
      Except.ok ⟨[Event.user "10:00:00" (aRun 100 ++ "...")], [], []⟩) ∧
    (processLine initState (some (userEvent (Py.str "2025-07-27T10:00:00Z") (Py.str (aRun 100)))) =
      Except.ok ⟨[Event.user "10:00:00" (aRun 100)], [], []⟩) ∧
    (renderEvent (Event.assistant "10:00:00" (aRun 201)) =
      Except.ok ("\n**Claude**: " ++ (aRun 200 ++ "...") ++ "\n")) ∧
    (renderEvent (Event.assistant "10:00:00" (aRun 200)) =
      Except.ok ("\n**Claude**: " ++ aRun 200 ++ "\n")) ∧
    (renderEvent (Event.tool "10:00:00" (Py.str "Bash") (Py.dict [("command", Py.str (aRun 81))])) =
      Except.ok ("- 🔧 Executed: `" ++ (aRun 80 ++ "...") ++ "`\n")) ∧
    (renderEvent (Event.tool "10:00:00" (Py.str "Bash") (Py.dict [("command", Py.str (aRun 80))])) =
      Except.ok ("- 🔧 Executed: `" ++ aRun 80 ++ "`\n")) :=
  ⟨truncation_boundaries.1 initState _ _ (aRun 101) "10:00:00" rfl (by decide) rfl rfl,
   truncation_boundaries.1 initState _ _ (aRun 100) "10:00:00" rfl (by decide) rfl rfl,
   truncation_boundaries.2.2.1 "10:00:00" (aRun 201),
   truncation_boundaries.2.2.1 "10:00:00" (aRun 200),
   truncation_boundaries.2.2.2 "10:00:00" (aRun 81),
   truncation_boundaries.2.2.2 "10:00:00" (aRun 80)⟩

/-- C2 counterexample: on a one-element argument vector the program
produces exit code 1 but writes the usage message to standard output;
its standard-error stream is the empty string, which is not a usage
message, so the run refutes the statement that the usage message goes
to standard error. -/
theorem usage_message_not_on_stderr :
    pyMain ["parse_session.py"] [] =
      Except.ok ⟨"Usage: python parse_session.py <jsonl_file>\n", "", 1⟩ ∧
    ("" : String) ≠ "Usage: python parse_session.py <jsonl_file>\n" :=
  ⟨rfl, by decide⟩

/-- C2 (amended): for every invocation whose argument count (excluding
the program name) is not exactly one, the program writes the usage
message to standard output and exits with exit code 1. -/
theorem usage_on_wrong_arity (argv : List String) (file : List (Option Py))
    (h : argv.length ≠ 2) :
    pyMain argv file =
      Except.ok ⟨"Usage: python parse_session.py <jsonl_file>\n", "", 1⟩ := by
  simp [pyMain, h]

/-- Witness for the amended C2 with three arguments. -/
theorem usage_on_wrong_arity_witness :
    pyMain ["parse_session.py", "a.jsonl", "extra"] [] =
      Except.ok ⟨"Usage: python parse_session.py <jsonl_file>\n", "", 1⟩ :=
  usage_on_wrong_arity ["parse_session.py", "a.jsonl", "extra"] [] (by decide)

/-- C3: when zero records are emitted the rendered report is exactly
`"No events found in session."`; in particular a file whose every line
fails JSON decoding parses to the empty accumulator, and a well-formed
invocation on such a file prints exactly that string. -/
theorem empty_session_report :
    (∀ tu files, generate_markdown [] tu files = Except.ok "No events found in session.") ∧
    (∀ lines, (∀ l ∈ lines, l = Option.none) → parse_jsonl lines = Except.ok initState) ∧
    (∀ lines argv, (∀ l ∈ lines, l = Option.none) → argv.length = 2 →
      pyMain argv lines = Except.ok ⟨"No events found in session.\n", "", 0⟩) := by
  refine ⟨fun tu files => rfl, ?_, ?_⟩
  · intro lines h
    exact parseLines_all_none lines initState h
  · intro lines argv h h2
    simp [pyMain, h2, parse_jsonl, parseLines_all_none lines initState h, ebind_ok, epure_eq]
    rfl

/-- Witness for C3 on a two-line file of undecodable lines. -/
theorem empty_session_report_witness :
    parse_jsonl [Option.none, Option.none] = Except.ok initState ∧
    pyMain ["parse_session.py", "f.jsonl"] [Option.none, Option.none] =
      Except.ok ⟨"No events found in session.\n", "", 0⟩ :=
  ⟨empty_session_report.2.1 [Option.none, Option.none] (by simp),
   empty_session_report.2.2 [Option.none, Option.none] ["parse_session.py", "f.jsonl"] (by simp) rfl⟩

/-- C4: a line that fails JSON decoding is skipped with no effect on the
accumulator (events, tool counter, modified files) and processing
continues; it is the only locally handled per-line failure — any other
exception raised while processing a line aborts the whole pass. -/
theorem malformed_lines_skipped :
    (∀ st, processLine st Option.none = Except.ok st) ∧
    (∀ st pre post, parseLines st (pre ++ Option.none :: post) = parseLines st (pre ++ post)) ∧
    (∀ st l ls e, processLine st l = Except.error e →
      parseLines st (l :: ls) = Except.error e) := by
  refine ⟨fun st => rfl, ?_, ?_⟩
  · intro st pre post
    induction pre generalizing st with
    | nil => simp [parseLines, processLine, ebind_ok]
    | cons l ls ih =>
      simp only [List.cons_append, parseLines]
      cases h : processLine st l with
      | ok st2 => simp [ebind_ok, h, ih]
      | error e => simp [ebind_err, h]
  · intro st l ls e h
    simp [parseLines, h, ebind_err]

/-- Witness for C4: dropping an undecodable line between two inputs, and
an `AttributeError` from a decoded non-dict line aborting the pass. -/
theorem malformed_lines_skipped_witness :
    parseLines initState ([some (userEvent (Py.str "2025-07-27T10:00:00Z") (Py.str "hi"))] ++
        Option.none :: []) =
      parseLines initState ([some (userEvent (Py.str "2025-07-27T10:00:00Z") (Py.str "hi"))] ++ []) ∧
    parseLines initState (some (Py.list []) :: [Option.none]) =
      Except.error PyErr.attributeError :=
  ⟨malformed_lines_skipped.2.1 initState
      [some (userEvent (Py.str "2025-07-27T10:00:00Z") (Py.str "hi"))] [],
   malformed_lines_skipped.2.2 initState (some (Py.list [])) [Option.none]
      PyErr.attributeError rfl⟩

/-- C5: an assistant entry whose single `tool_use` block names `Write`
with `input.file_path = "/a/b/c.txt"` adds that path to the
modified-files set, increments the `Write` counter by exactly 1, appends
exactly one tool record carrying the full input mapping, and that record
renders as a `Modified: c.txt` line (basename after splitting on `/`). -/
theorem write_block_tracking (st : ParseState) (tsv : Py) (time : String)
    (hts : parse_timestamp tsv = Except.ok time) :
    processLine st (some (assistantEvent tsv [toolUseBlock (Py.str "Write")
        (Py.dict [("file_path", Py.str "/a/b/c.txt")])])) =
      Except.ok ⟨st.events ++
          [Event.tool time (Py.str "Write") (Py.dict [("file_path", Py.str "/a/b/c.txt")])],
        bump st.tool_uses (Py.str "Write"),
        insertIfAbsent st.files_modified (Py.str "/a/b/c.txt")⟩ ∧
    countOf (bump st.tool_uses (Py.str "Write")) (Py.str "Write") =
      countOf st.tool_uses (Py.str "Write") + 1 ∧
    Py.str "/a/b/c.txt" ∈ insertIfAbsent st.files_modified (Py.str "/a/b/c.txt") ∧
    renderEvent (Event.tool time (Py.str "Write") (Py.dict [("file_path", Py.str "/a/b/c.txt")])) =
      Except.ok "- 📝 Modified: `c.txt`\n" := by
  refine ⟨?_, countOf_bump st.tool_uses (Py.str "Write"),
    self_mem_insertIfAbsent st.files_modified (Py.str "/a/b/c.txt"), ?_⟩
  · simp [processLine, assistantEvent, toolUseBlock, processItems, pyGetD, dictLookup,
      isMutatingTool, pyTruthy, hts, ebind_ok, epure_eq]
  · simp [renderEvent, isMutatingTool, pyGetD, dictLookup, pyBasenamePy, pyBasename,
      splitChar, ebind_ok, epure_eq]

set_option maxRecDepth 4000 in
/-- Witness for C5 from the empty accumulator with a concrete timestamp. -/
theorem write_block_tracking_witness :
    processLine initState (some (assistantEvent (Py.str "2025-07-27T10:00:05Z")
        [toolUseBlock (Py.str "Write") (Py.dict [("file_path", Py.str "/a/b/c.txt")])])) =
      Except.ok ⟨[Event.tool "10:00:05" (Py.str "Write") (Py.dict [("file_path", Py.str "/a/b/c.txt")])],
        [(Py.str "Write", 1)], [Py.str "/a/b/c.txt"]⟩ ∧
    renderEvent (Event.tool "10:00:05" (Py.str "Write") (Py.dict [("file_path", Py.str "/a/b/c.txt")])) =
      Except.ok "- 📝 Modified: `c.txt`\n" :=
  ⟨(write_block_tracking initState (Py.str "2025-07-27T10:00:05Z") "10:00:05" rfl).1,
   (write_block_tracking initState (Py.str "2025-07-27T10:00:05Z") "10:00:05" rfl).2.2.2⟩

/-- C6: the records emitted by the parsing pass appear in input order —
each content block and each line only ever appends records to the end of
the sequence — and the rendered timeline is the in-order concatenation of
per-record renderings embedded unchanged between the header and the
statistics; nothing is re-sorted by timestamp or record type. -/
theorem timeline_order_preserved :
    (∀ ts items st st2, processItems ts st items = Except.ok st2 →
      ∃ new, st2.events = st.events ++ new) ∧
    (∀ st l st2, processLine st l = Except.ok st2 →
      ∃ new, st2.events = st.events ++ new) ∧
    (∀ ls st st2, parseLines st ls = Except.ok st2 →
      ∃ new, st2.events = st.events ++ new) ∧
    (∀ es1 es2, renderTimeline (es1 ++ es2) =
      (renderTimeline es1 >>= fun a => renderTimeline es2 >>= fun b => pure (a ++ b))) ∧
    (∀ e0 rest tu files tl fs,
      renderTimeline (e0 :: rest) = Except.ok tl →
      filesSection files = Except.ok fs →
      generate_markdown (e0 :: rest) tu files =
        Except.ok (mkHeader (Event.timeOf e0) (Event.timeOf (rest.getLastD e0)) ++ tl
          ++ statsSection (e0 :: rest) tu files ++ fs)) := by
  refine ⟨?_, ?_, ?_, renderTimeline_append, ?_⟩
  · intro ts items st st2 h
    exact (processItems_evolution ts items st st2 h).1
  · intro st l st2 h
    exact (processLine_evolution st l st2 h).1
  · intro ls st st2 h
    exact (parseLines_evolution ls st st2 h).1
  · intro e0 rest tu files tl fs h1 h2
    simp [generate_markdown, h1, h2, ebind_ok, epure_eq, String.append_assoc]

set_option maxRecDepth 4000 in
/-- Witness for C6 on concrete single-record states and a two-record
timeline. -/
theorem timeline_order_preserved_witness :
    (∃ new, (⟨[Event.user "10:00:00" "hello"], [], []⟩ : ParseState).events =
      initState.events ++ new) ∧
    renderTimeline ([Event.user "10:00:00" "hi"] ++ [Event.assistant "10:00:01" "ok"]) =
      (renderTimeline [Event.user "10:00:00" "hi"] >>= fun a =>
        renderTimeline [Event.assistant "10:00:01" "ok"] >>= fun b => pure (a ++ b)) ∧
    generate_markdown [Event.user "10:00:00" "hi"] [] [] =
      Except.ok (mkHeader "10:00:00" "10:00:00" ++ "\n### [10:00:00] User\n> hi\n"
        ++ statsSection [Event.user "10:00:00" "hi"] [] [] ++ "") :=
  ⟨timeline_order_preserved.2.1 initState
      (some (userEvent (Py.str "2025-07-27T10:00:00Z") (Py.str "hello")))
      ⟨[Event.user "10:00:00" "hello"], [], []⟩ rfl,
   timeline_order_preserved.2.2.2.1 [Event.user "10:00:00" "hi"] [Event.assistant "10:00:01" "ok"],
   timeline_order_preserved.2.2.2.2 (Event.user "10:00:00" "hi") [] [] []
      "\n### [10:00:00] User\n> hi\n" "" rfl rfl⟩

/-- C7: a tool record whose name is none of the six specially rendered
names (`Bash`, `Edit`, `Write`, `MultiEdit`, `Read`, `Grep`) produces no
timeline line, yet the invocation still appends a record, increments its
counter entry by exactly 1, and that entry appears in the sorted Tool
Usage list of the statistics section. -/
theorem silent_tool_still_counted (st : ParseState) (tsv tool details : Py) (time : String)
    (tu : List (Py × Nat))
    (hts : parse_timestamp tsv = Except.ok time)
    (h : tool ∉ [Py.str "Bash", Py.str "Edit", Py.str "Write", Py.str "MultiEdit",
      Py.str "Read", Py.str "Grep"]) :
    renderEvent (Event.tool time tool details) = Except.ok "" ∧
    processLine st (some (assistantEvent tsv [toolUseBlock tool details])) =
      Except.ok ⟨st.events ++ [Event.tool time tool details],
        bump st.tool_uses tool, st.files_modified⟩ ∧
    countOf (bump tu tool) tool = countOf tu tool + 1 ∧
    (tool, countOf tu tool + 1) ∈ sortToolUses (bump tu tool) ∧
    (∃ pre post, toolUsageLines (sortToolUses (bump tu tool)) =
      pre ++ ("- " ++ pyFmt tool ++ ": " ++ toString (countOf tu tool + 1) ++ " times\n") ++ post) := by
  simp only [List.mem_cons, List.not_mem_nil, or_false, not_or] at h
  obtain ⟨hb, he, hw, hm2, hr, hg⟩ := h
  have hmf : isMutatingTool tool = false := by
    simp [isMutatingTool, he, hw, hm2]
  have hmem : (tool, countOf tu tool + 1) ∈ sortToolUses (bump tu tool) := by
    rw [mem_sortToolUses]
    exact bump_self_mem tu tool
  refine ⟨?_, ?_, countOf_bump tu tool, hmem, toolUsageLines_has_line _ _ _ hmem⟩
  · simp [renderEvent, hb, hmf, hr, hg, epure_eq]
  · simp [processLine, assistantEvent, toolUseBlock, processItems, pyGetD, dictLookup,
      hmf, hts, ebind_ok, epure_eq]

set_option maxRecDepth 4000 in
/-- Witness for C7 with the unrendered tool name `WebSearch`. -/
theorem silent_tool_still_counted_witness :
    renderEvent (Event.tool "10:00:05" (Py.str "WebSearch") (Py.dict [])) = Except.ok "" ∧
    processLine initState (some (assistantEvent (Py.str "2025-07-27T10:00:05Z")
        [toolUseBlock (Py.str "WebSearch") (Py.dict [])])) =
      Except.ok ⟨[Event.tool "10:00:05" (Py.str "WebSearch") (Py.dict [])],
        [(Py.str "WebSearch", 1)], []⟩ ∧
    (Py.str "WebSearch", 1) ∈ sortToolUses (bump [] (Py.str "WebSearch")) :=
  ⟨(silent_tool_still_counted initState (Py.str "2025-07-27T10:00:05Z") (Py.str "WebSearch")
      (Py.dict []) "10:00:05" [] rfl (by decide)).1,
   (silent_tool_still_counted initState (Py.str "2025-07-27T10:00:05Z") (Py.str "WebSearch")
      (Py.dict []) "10:00:05" [] rfl (by decide)).2.1,
   (silent_tool_still_counted initState (Py.str "2025-07-27T10:00:05Z") (Py.str "WebSearch")
      (Py.dict []) "10:00:05" [] rfl (by decide)).2.2.2.1⟩

/-- C8: the Files Modified section is present exactly when the
modified-files set is non-empty; when present (on a set of path strings)
it lists the paths sorted lexicographically by code point, each exactly
once — the set built by the parsing pass is duplicate-free, and sorting
is a permutation, preserves duplicate-freeness, and yields a
`strLe`-pairwise-sorted listing. -/
theorem files_modified_listing :
    (filesSection [] = Except.ok "") ∧
    (∀ strs : List String, strs ≠ [] →
      filesSection (strs.map Py.str) =
        Except.ok ("\n## Files Modified\n\n" ++ filesLines ((sortStrsFrom [] strs).map Py.str)) ∧
      (sortStrsFrom [] strs).Pairwise (fun a b => strLe a b = true) ∧
      (∀ s, s ∈ sortStrsFrom [] strs ↔ s ∈ strs) ∧
      (strs.Nodup → (sortStrsFrom [] strs).Nodup) ∧
      (strs.Nodup → ∀ s ∈ strs, (sortStrsFrom [] strs).count s = 1)) ∧
    (∀ file st, parse_jsonl file = Except.ok st → st.files_modified.Nodup) := by
  refine ⟨rfl, ?_, ?_⟩
  · intro strs hne
    have hperm : (sortStrsFrom [] strs).Perm strs := by
      simpa using sortStrsFrom_perm strs []
    refine ⟨?_, sortStrsFrom_sorted strs [] (by simp), fun s => hperm.mem_iff,
      fun hnd => hperm.nodup_iff.mpr hnd, ?_⟩
    · have hme : (strs.map Py.str).isEmpty = false := by
        cases strs with
        | nil => exact absurd rfl hne
        | cons a l => rfl
      have hs : pySorted (strs.map Py.str) =
          Except.ok ((sortStrsFrom [] strs).map Py.str) := sortPyFrom_str strs []
      simp [filesSection, hme, hs, ebind_ok, epure_eq]
    · intro hnd s hs
      rw [hperm.count_eq s]
      exact List.count_eq_one_of_mem hnd hs
  · intro file st h
    exact (parseLines_evolution file initState st h).2 (by simp [initState])

/-- Witness for C8 on the two-path set `{/b.txt, /a.txt}`. -/
theorem files_modified_listing_witness :
    filesSection (["/b.txt", "/a.txt"].map Py.str) =
      Except.ok ("\n## Files Modified\n\n" ++
        filesLines ((sortStrsFrom [] ["/b.txt", "/a.txt"]).map Py.str)) ∧
    (sortStrsFrom [] ["/b.txt", "/a.txt"]).Pairwise (fun a b => strLe a b = true) ∧
    ((["/b.txt", "/a.txt"] : List String).Nodup →
      (sortStrsFrom [] ["/b.txt", "/a.txt"]).Nodup) :=
  ⟨(files_modified_listing.2.1 ["/b.txt", "/a.txt"] (by decide)).1,
   (files_modified_listing.2.1 ["/b.txt", "/a.txt"] (by decide)).2.1,
   (files_modified_listing.2.1 ["/b.txt", "/a.txt"] (by decide)).2.2.2.1⟩

/-- C9: a decoded line whose `type` is neither `user` nor `assistant`
is processed to completion without touching its timestamp (any
timestamp value, including a missing or non-string one, yields success),
as is a `user` line whose extracted text is empty or begins with
`is running…`; the timestamp is parsed — and a malformed one is fatal —
only when a record is actually emitted. -/
theorem timestamp_parsed_lazily :
    (∀ st (kvs : List (String × Py)),
      (dictLookup kvs "type").getD (Py.str "") ≠ Py.str "user" →
      (dictLookup kvs "type").getD (Py.str "") ≠ Py.str "assistant" →
      processLine st (some (Py.dict kvs)) = Except.ok st) ∧
    (∀ st tsv content t, extract_message_text content = Except.ok t →
      (t = "" ∨ pyStartsWith t "is running…" = true) →
      processLine st (some (userEvent tsv content)) = Except.ok st) ∧
    (∀ st tsv content t e, extract_message_text content = Except.ok t →
      t ≠ "" →
      pyStartsWith t "is running…" = false →
      parse_timestamp tsv = Except.error e →
      processLine st (some (userEvent tsv content)) = Except.error e) := by
  refine ⟨?_, ?_, ?_⟩
  · intro st kvs h1 h2
    simp [processLine, pyGetD, ebind_ok, h1, h2]
  · intro st tsv content t hx hcase
    rcases hcase with h | h
    · subst h
      simp [processLine, userEvent, pyGetD, dictLookup, hx, ebind_ok]
    · simp [processLine, userEvent, pyGetD, dictLookup, hx, h, ebind_ok]
  · intro st tsv content t e hx hne hpre hts
    simp [processLine, userEvent, pyGetD, dictLookup, hx, hne, hpre, hts, ebind_ok, ebind_err]

/-- Witness for C9: a `summary` line and a suppressed user line with
unusable timestamps succeed; a malformed timestamp on an emitting user
line raises `ValueError`. -/
theorem timestamp_parsed_lazily_witness :
    processLine initState (some (Py.dict [("type", Py.str "summary"), ("timestamp", Py.int 7)])) =
      Except.ok initState ∧
    processLine initState (some (userEvent (Py.int 7) (Py.str "is running… build"))) =
      Except.ok initState ∧
    processLine initState (some (userEvent (Py.str "not-a-timestamp") (Py.str "hello"))) =
      Except.error PyErr.valueError :=
  ⟨timestamp_parsed_lazily.1 initState [("type", Py.str "summary"), ("timestamp", Py.int 7)]
      (by decide) (by decide),
   timestamp_parsed_lazily.2.1 initState (Py.int 7) (Py.str "is running… build")
      "is running… build" rfl (Or.inr rfl),
   timestamp_parsed_lazily.2.2 initState (Py.str "not-a-timestamp") (Py.str "hello")
      "hello" PyErr.valueError rfl (by decide) rfl rfl⟩

/-- C10: a `tool_use` block naming a file-mutating tool whose
`input.file_path` is absent or empty leaves the modified-files set
unchanged, still increments that tool counter by 1, and still renders a
`Modified:` timeline line whose basename is the empty string. -/
theorem missing_file_path_behavior (st : ParseState) (tsv name : Py) (time : String)
    (hts : parse_timestamp tsv = Except.ok time)
    (hm : isMutatingTool name = true) :
    processLine st (some (assistantEvent tsv [toolUseBlockNoInput name])) =
      Except.ok ⟨st.events ++ [Event.tool time name (Py.dict [])],
        bump st.tool_uses name, st.files_modified⟩ ∧
    processLine st (some (assistantEvent tsv
        [toolUseBlock name (Py.dict [("file_path", Py.str "")])])) =
      Except.ok ⟨st.events ++ [Event.tool time name (Py.dict [("file_path", Py.str "")])],
        bump st.tool_uses name, st.files_modified⟩ ∧
    countOf (bump st.tool_uses name) name = countOf st.tool_uses name + 1 ∧
    renderEvent (Event.tool time name (Py.dict [])) = Except.ok "- 📝 Modified: ``\n" ∧
    renderEvent (Event.tool time name (Py.dict [("file_path", Py.str "")])) =
      Except.ok "- 📝 Modified: ``\n" := by
  have hnb : name ≠ Py.str "Bash" := by
    simp [isMutatingTool] at hm
    rcases hm with (h | h) | h <;> subst h <;> decide
  refine ⟨?_, ?_, countOf_bump st.tool_uses name, ?_, ?_⟩
  · simp [processLine, assistantEvent, toolUseBlockNoInput, processItems, pyGetD, dictLookup,
      hm, pyTruthy, hts, ebind_ok, epure_eq]
  · simp [processLine, assistantEvent, toolUseBlock, processItems, pyGetD, dictLookup,
      hm, pyTruthy, hts, ebind_ok, epure_eq]
  · simp [renderEvent, hnb, hm, pyGetD, dictLookup, pyBasenamePy, pyBasename, splitChar,
      ebind_ok, epure_eq]
  · simp [renderEvent, hnb, hm, pyGetD, dictLookup, pyBasenamePy, pyBasename, splitChar,
      ebind_ok, epure_eq]

/-- Witness for C10 with the `Edit` tool and no `input` key. -/
theorem missing_file_path_behavior_witness :
    processLine initState (some (assistantEvent (Py.str "2025-07-27T10:00:05Z")
        [toolUseBlockNoInput (Py.str "Edit")])) =
      Except.ok ⟨[Event.tool "10:00:05" (Py.str "Edit") (Py.dict [])],
        [(Py.str "Edit", 1)], []⟩ ∧
    renderEvent (Event.tool "10:00:05" (Py.str "Edit") (Py.dict [])) =
      Except.ok "- 📝 Modified: ``\n" :=
  ⟨(missing_file_path_behavior initState (Py.str "2025-07-27T10:00:05Z") (Py.str "Edit")
      "10:00:05" rfl rfl).1,
   (missing_file_path_behavior initState (Py.str "2025-07-27T10:00:05Z") (Py.str "Edit")
      "10:00:05" rfl rfl).2.2.2.1⟩
